import Mathlib

/-!
Verification of the F4 absolute/relative reference toggling core of
`src/lib/parsers.py` (functions `testXorYabsrel`, `makeXorYrel`, `makeXorYabs`,
`makeXorYrelorabs`, `findpos`, `findcolon`, `OnF4`).

Texts are embedded as `List Char`.  Python's `int()` literal parsing and the
restricted `eval(_, {})` arithmetic evaluation are modelled by executable Lean
functions (`pyInt`, `pyEval`).  Loops of the source are embedded as structural
or fuelled recursion; a distinguished `diverge` outcome records fuel exhaustion
(the source contains loops that can fail to terminate), and an `exn` outcome
records an uncaught Python exception (out-of-range string indexing).
-/

abbrev Chars := List Char

/-- Python whitespace characters recognised by `int()` / `str.strip`. -/
def isPyWs (c : Char) : Bool :=
  c = ' ' || c = Char.ofNat 9 || c = Char.ofNat 10 ||
  c = Char.ofNat 13 || c = Char.ofNat 11 || c = Char.ofNat 12

/-- Decimal digit test. -/
def isDig (c : Char) : Bool := decide (48 ≤ c.toNat ∧ c.toNat ≤ 57)

/-- Value of a decimal digit character. -/
def digitVal (c : Char) : Nat := c.toNat - 48

/-- The decimal digit character for `n` (defined by cases to keep kernel
reduction easy; for `n ≥ 9` it is `'9'`, matching its use at arguments `< 10`). -/
def digitChar (n : Nat) : Char :=
  if n = 0 then '0' else if n = 1 then '1' else if n = 2 then '2'
  else if n = 3 then '3' else if n = 4 then '4' else if n = 5 then '5'
  else if n = 6 then '6' else if n = 7 then '7' else if n = 8 then '8' else '9'

/-- Fuelled decimal printer for naturals (fuel keeps it kernel-reducible). -/
def natToCharsAux : Nat → Nat → Chars
  | 0, _ => []
  | f + 1, n =>
    if n < 10 then [digitChar n]
    else natToCharsAux f (n / 10) ++ [digitChar (n % 10)]

/-- Python `str` of a natural number. -/
def natToChars (n : Nat) : Chars := natToCharsAux (n + 1) n

/-- Python `str` of an integer. -/
def intToChars (n : Int) : Chars :=
  if n < 0 then '-' :: natToChars (-n).toNat else natToChars n.toNat

/-- Reads a digit string left to right, `none` on any non-digit. -/
def digitsValAux : Chars → Nat → Option Nat
  | [], acc => some acc
  | c :: cs, acc =>
    if isDig c then digitsValAux cs (10 * acc + digitVal c) else none

/-- Value of a non-empty all-digit string, else `none`. -/
def digitsVal : Chars → Option Nat
  | [] => none
  | c :: cs => digitsValAux (c :: cs) 0

/-- Python `str.strip()` (both ends). -/
def pyStrip (s : Chars) : Chars :=
  ((s.dropWhile isPyWs).reverse.dropWhile isPyWs).reverse

/-- Python `int(text)`: strips whitespace, allows one sign, then digits. -/
def pyInt (s : Chars) : Option Int :=
  match pyStrip s with
  | [] => none
  | c :: rest =>
    if c = '-' then (digitsVal rest).map (fun m => -(m : Int))
    else if c = '+' then (digitsVal rest).map (fun m => (m : Int))
    else (digitsVal (c :: rest)).map (fun m => (m : Int))

def pyFindAux : Chars → Char → Nat → Int
  | [], _, _ => -1
  | c :: cs, ch, i => if c = ch then (i : Int) else pyFindAux cs ch (i + 1)

/-- Python `text.find(ch)`: index of first occurrence, `-1` if absent. -/
def pyFind (s : Chars) (c : Char) : Int := pyFindAux s c 0

example : pyInt " 4".toList = some 4 := by decide
example : pyInt " 4]".toList = none := by decide
example : pyInt "-37".toList = some (-37) := by decide
example : pyInt "+5 ".toList = some 5 := by decide
example : pyInt "foo".toList = none := by decide
example : pyFind "S[3, 4]".toList 'S' = 0 := by decide
example : pyFind "abc".toList 'S' = -1 := by decide
example : intToChars (-12) = "-12".toList := by decide
example : natToChars 740 = "740".toList := by decide

/-!
`pyEval` — Modelled from the spec: the source calls Python's builtin
`eval(temp, {})` (not code of this repository); the spec restricts it to a
minimal arithmetic expression evaluator over numeric literals with no variable
bindings, failing on any unbound identifier.  We model integer literals, unary
sign, `+`, `-`, `*`, parentheses and whitespace; anything else fails.
Recursion is fuelled so that everything kernel-reduces.
-/

/-- Parses a leading run of digits as an integer, returning the rest. -/
def parseNum (s : Chars) : Option (Int × Chars) :=
  match digitsVal (s.takeWhile isDig) with
  | some m => some ((m : Int), s.dropWhile isDig)
  | none => none

mutual

def parseExpr : Nat → Chars → Option (Int × Chars)
  | 0, _ => none
  | f + 1, s =>
    match parseTerm f s with
    | some (v, r) => exprLoop f v r
    | none => none

def exprLoop : Nat → Int → Chars → Option (Int × Chars)
  | 0, _, _ => none
  | f + 1, v, s =>
    match s.dropWhile isPyWs with
    | [] => some (v, s)
    | c :: r =>
      if c = '+' then
        match parseTerm f r with
        | some (w, r2) => exprLoop f (v + w) r2
        | none => none
      else if c = '-' then
        match parseTerm f r with
        | some (w, r2) => exprLoop f (v - w) r2
        | none => none
      else some (v, s)

def parseTerm : Nat → Chars → Option (Int × Chars)
  | 0, _ => none
  | f + 1, s =>
    match parseAtom f s with
    | some (v, r) => termLoop f v r
    | none => none

def termLoop : Nat → Int → Chars → Option (Int × Chars)
  | 0, _, _ => none
  | f + 1, v, s =>
    match s.dropWhile isPyWs with
    | [] => some (v, s)
    | c :: r =>
      if c = '*' then
        match parseAtom f r with
        | some (w, r2) => termLoop f (v * w) r2
        | none => none
      else some (v, s)

def parseAtom : Nat → Chars → Option (Int × Chars)
  | 0, _ => none
  | f + 1, s =>
    match s.dropWhile isPyWs with
    | [] => parseNum []
    | c :: r =>
      if c = '-' then
        match parseAtom f r with
        | some (v, r2) => some (-v, r2)
        | none => none
      else if c = '+' then parseAtom f r
      else if c = '(' then
        match parseExpr f r with
        | some (v, r2) =>
          match r2.dropWhile isPyWs with
          | ')' :: r3 => some (v, r3)
          | _ => none
        | none => none
      else parseNum (c :: r)

end

/-- Modelled from the spec: restricted arithmetic evaluation standing in for
Python `eval(_, {})`; succeeds only if the whole text is consumed. -/
def pyEval (s : Chars) : Option Int :=
  match parseExpr (2 * s.length + 8) s with
  | some (v, r) => if r.dropWhile isPyWs = [] then some v else none
  | none => none

example : pyEval "0 + 3".toList = some 3 := by decide
example : pyEval "0 - 4".toList = some (-4) := by decide
example : pyEval "0".toList = some 0 := by decide
example : pyEval "0!".toList = none := by decide
example : pyEval " 0!".toList = none := by decide
example : pyEval "2 * (3 - 5)".toList = some (-4) := by decide
example : pyEval "0 + y".toList = none := by decide

/-!  The embedded source functions.  -/

/-- `text[:text.find(xory)] + '0' + text[text.find(xory) + 1:]` with Python
slice semantics (when `xory` is absent, `find` is `-1` and the Python slices
produce `text[:-1] + '0' + text`). -/
def substFirst0 (xory : Char) (text : Chars) : Chars :=
  let f := pyFind text xory
  if 0 ≤ f then text.take f.toNat ++ '0' :: text.drop (f.toNat + 1)
  else text.dropLast ++ '0' :: text

/-- `testXorYabsrel` from the source: classify one axis component.
Returns `"A" + xory` (integer literal), `"R" + xory` (evaluates after the axis
name is replaced by `0`), `"C" + xory` (contains the axis name but still fails
to evaluate) or the initial placeholder `"-"` (no axis name occurrence). -/
def testXorYabsrel (xory : Char) (text : Chars) : Chars :=
  match pyInt text with
  | some _ => ['A', xory]
  | none =>
    if 0 ≤ pyFind text xory then
      match pyEval (substFirst0 xory text) with
      | some _ => ['R', xory]
      | none => ['C', xory]
    else ['-']

/-- `makeXorYrel` from the source; `none` models the uncaught exception of
`int(text)` failing. -/
def makeXorYrel (xory : Char) (text : Chars) (posCursor : Int × Int) :
    Option Chars :=
  let posCursorXY := if xory = 'X' then posCursor.1 else posCursor.2
  (pyInt text).map (fun v =>
    let diff := v - posCursorXY
    if 0 < diff then xory :: ' ' :: '+' :: ' ' :: intToChars diff
    else xory :: ' ' :: '-' :: ' ' :: intToChars (-diff))

/-- `makeXorYabs` from the source; `none` models an uncaught `eval` failure. -/
def makeXorYabs (xory : Char) (text : Chars) (posCursor : Int × Int) :
    Option Chars :=
  let posCursorXY := if xory = 'X' then posCursor.1 else posCursor.2
  (pyEval (substFirst0 xory text)).map (fun v => intToChars (v + posCursorXY))

/-- `makeXorYrelorabs` from the source. -/
def makeXorYrelorabs (xory : Char) (relorabs : Chars) (text : Chars)
    (posCursor : Int × Int) : Option Chars :=
  if relorabs = ['r', 'e', 'l'] then makeXorYrel xory text posCursor
  else if relorabs = ['a', 'b', 's'] then makeXorYabs xory text posCursor
  else some text

example : testXorYabsrel 'X' "3".toList = ['A', 'X'] := by decide
example : testXorYabsrel 'Y' " 4".toList = ['A', 'Y'] := by decide
example : testXorYabsrel 'X' "X + 3".toList = ['R', 'X'] := by decide
example : testXorYabsrel 'X' "X!".toList = ['C', 'X'] := by decide
example : testXorYabsrel 'Y' " 4]".toList = ['-'] := by decide
example : makeXorYrel 'X' "3".toList (0, 0) = some "X + 3".toList := by decide
example : makeXorYrel 'X' "3".toList (5, 0) = some "X - 2".toList := by decide
example : makeXorYabs 'Y' "Y + 4".toList (0, 0) = some "4".toList := by decide
example : makeXorYabs 'Y' "Y - 2".toList (0, 5) = some "3".toList := by decide

/-!  Bracket/quote scanners (`findpos`, `findcolon`) and the `]` scan.  -/

/-- Apostrophe and double-quote characters (written via code points). -/
def quoteChar : Char := Char.ofNat 39

def dquoteChar : Char := Char.ofNat 34

/-- Tab character, `chr(9)` in the source. -/
def tabChar : Char := Char.ofNat 9

/-- Backtick character. -/
def backtickChar : Char := Char.ofNat 96

/-- The inner `while bracketlevel > 0 and pos < len(text)` loop shared verbatim
by `findpos` and `findcolon` in the source: consumes characters, incrementing
the level on `([{` and on either quote character (the increment branch is
checked first, so quotes never decrement), decrementing on `)]}`.
Returns `(consumed, final level)`. -/
def skipInner : Chars → Nat → Nat × Nat
  | _, 0 => (0, 0)
  | [], lvl + 1 => (0, lvl + 1)
  | c :: cs, lvl + 1 =>
    let lvl2 :=
      if c ∈ ['(', '[', '{', quoteChar, dquoteChar] then lvl + 1 + 1
      else if c ∈ [')', ']', '}', quoteChar, dquoteChar] then lvl + 1 - 1
      else lvl + 1
    let r := skipInner cs lvl2
    (r.1 + 1, r.2)

/-- Fuelled outer loop of `findpos`: returns the index of the comma that stops
the scan, or `none`.  On an opening bracket at the current position the level
becomes 1 and the inner loop re-reads that same bracket (hence double-counts
it); after the inner loop, `pos += 1` skips one further character. -/
def findposIdx : Nat → Chars → Option Nat
  | 0, _ => none
  | _ + 1, [] => none
  | f + 1, c :: cs =>
    if c = ',' then some 0
    else if c ∈ ['(', '[', '{'] then
      let r := skipInner (c :: cs) 1
      match findposIdx f ((c :: cs).drop (r.1 + 1)) with
      | some k => some (r.1 + 1 + k)
      | none => none
    else
      match findposIdx f cs with
      | some k => some (k + 1)
      | none => none

/-- `findpos` from the source: the prefix before the comma that stops its
scanner, or the whole text. -/
def findpos (text : Chars) : Chars :=
  match findposIdx (text.length + 1) text with
  | some k => text.take k
  | none => text

/-- Fuelled outer loop of `findcolon` for one string: carries the (shared!)
`bracketlevel` in and out; returns the colon index found, if any, and the
final level. -/
def findcolonIdx : Nat → Nat → Chars → Option Nat × Nat
  | 0, lvl, _ => (none, lvl)
  | _ + 1, lvl, [] => (none, lvl)
  | f + 1, lvl, c :: cs =>
    if c = ':' then (some 0, lvl)
    else if c ∈ ['(', '[', '{'] then
      let r := skipInner (c :: cs) (lvl + 1)
      match findcolonIdx f r.2 ((c :: cs).drop (r.1 + 1)) with
      | (some k, l) => (some (r.1 + 1 + k), l)
      | (none, l) => (none, l)
    else
      match findcolonIdx f lvl cs with
      | (some k, l) => (some (k + 1), l)
      | (none, l) => (none, l)

/-- Converts a found index to the Python result (`-1` when not found). -/
def optIdxToInt : Option Nat → Int
  | none => -1
  | some k => (k : Int)

/-- `findcolon` from the source, on the two-element list `[str1, str2]`:
`bracketlevel` is initialised once and carried from the first string into the
second. -/
def findcolon (strXY : Chars × Chars) : Int × Int :=
  let r1 := findcolonIdx (strXY.1.length + 1) 0 strXY.1
  let r2 := findcolonIdx (strXY.2.length + 1) r1.2 strXY.2
  (optIdxToInt r1.1, optIdxToInt r2.1)

example : findpos "3, 4".toList = "3".toList := by decide
example : findpos " 4]".toList = " 4]".toList := by decide
example : findpos "(a),b".toList = "(a),b".toList := by decide
example : findpos "(a)) ,b".toList = "(a)) ".toList := by decide
example : findcolon ("(a:b)".toList, "".toList) = (-1, -1) := by decide
example : findcolon ("3".toList, " 4".toList) = (-1, -1) := by decide
example : findcolon ("".toList, "())x:".toList) = (-1, 4) := by decide
example : findcolon ("(".toList, "())x:".toList) = (-1, -1) := by decide

/-!  `OnF4` from the source.  -/

/-- The fixed separator list of `OnF4`. -/
def separators : Chars :=
  [' ', tabChar, '+', '-', '*', '/', '%', '<', '>', '&', '|', '^', '~', '=',
   '!', '(', ')', '[', ']', '{', '}', '@', ',', ':', '.', backtickChar, ';']

/-- The data `OnF4` carries out of a successful search: the final values of
`posX`, `posY`, `str1`, `str2`, `abs1`, `abs2`. -/
structure Found where
  posX : Nat
  posY : Nat
  str1 : Chars
  str2 : Chars
  abs1 : Chars
  abs2 : Chars
deriving DecidableEq, Repr

/-- Result of one of `OnF4`'s searches. -/
inductive InRes where
  | diverge : InRes
  | exn : InRes
  | notFound : InRes
  | found : Found → InRes
deriving DecidableEq, Repr

/-- Result of `OnF4` itself: fuel exhaustion (a non-terminating loop in the
source), an uncaught Python exception, Python's implicit `return None`, or
`return text, pos`. -/
inductive Out where
  | diverge : Out
  | exn : Out
  | retNone : Out
  | ret : Chars → Nat → Out
deriving DecidableEq, Repr

/-- `while text[temp] != ']' and temp < len(text): temp += 1` on the suffix
from `temp`: offset of the first `]`, or `none` for the `IndexError` raised
when `text[temp]` is evaluated at `temp = len(text)`. -/
def scanRBAux : Chars → Option Nat
  | [] => none
  | c :: cs => if c = ']' then some 0 else (scanRBAux cs).map (· + 1)

/-- `while text[temp] in [' ', chr(9)] and temp > 0: temp -= 1` (indices stay
in range here, so plain reads suffice). -/
def wsSkipBack (text : Chars) : Nat → Nat
  | 0 => 0
  | t + 1 =>
    if text.get? (t + 1) = some ' ' ∨ text.get? (t + 1) = some tabChar then
      wsSkipBack text t
    else t + 1

/-- `while (text[posX] in [' ', chr(9), '[']) and (posX < len(text))`: offset
skipped in the suffix; `none` models the `IndexError` when the whole suffix is
consumed and `text[posX]` is read at `posX = len(text)`. -/
def wsLbSkipFwdAux : Chars → Option Nat
  | [] => none
  | c :: cs =>
    if c ∈ [' ', tabChar, '['] then (wsLbSkipFwdAux cs).map (· + 1)
    else some 0

/-- The body of the cursor-inside backward scan once `text[q] = '['`:
whitespace-skip back from `q - 1`, check for a preceding `S` at a separator
boundary, scan forward from `posins` for `]`, split the interior with
`findpos`, and handle colons exactly as the source's branch ladder does.
`none` means the `S` check failed (the outer loop continues), `some .exn`
the `]` scan raised, `some (.found f)` success. -/
def atBracket (text : Chars) (posins : Nat) (q : Nat) : Option InRes :=
  let temp := wsSkipBack text (q - 1)
  if text.get? temp = some 'S' ∧
      (temp = 0 ∨ ∃ c, text.get? (temp - 1) = some c ∧ c ∈ separators) then
    match scanRBAux (text.drop posins) with
    | none => some .exn
    | some off =>
      let temp2 := posins + off
      let posX := q + 1
      let str1 := findpos ((text.drop posX).take (temp2 - posX))
      let posY := posX + str1.length + 1
      let str2 := findpos ((text.drop posY).take (temp2 - posY))
      let colons := findcolon (str1, str2)
      if colons = (-1, -1) then
        some (.found ⟨posX, posY, str1, str2,
          testXorYabsrel 'X' str1, testXorYabsrel 'Y' str2⟩)
      else if (posins : Int) ≤ (posX : Int) + str1.length then
        if colons.1 = -1 then
          some (.found ⟨posX, posY, str1, str2, testXorYabsrel 'X' str1, ['-']⟩)
        else
          let c0 := colons.1.toNat
          let posY2 := posX + c0 + 1
          let str2b := str1.drop (c0 + 1)
          let str1b := str1.take c0
          some (.found ⟨posX, posY2, str1b, str2b,
            testXorYabsrel 'X' str1b, testXorYabsrel 'X' str2b⟩)
      else
        if colons.2 = -1 then
          some (.found ⟨posX, posY, str1, str2, ['-'], testXorYabsrel 'Y' str2⟩)
        else
          let c1 := colons.2.toNat
          let posX2 := posY
          let str1b := str2.take c1
          let posY2 := posY + c1 + 1
          let str2b := str2.drop (c1 + 1)
          some (.found ⟨posX2, posY2, str1b, str2b,
            testXorYabsrel 'Y' str1b, testXorYabsrel 'Y' str2b⟩)
  else none

/-- The cursor-inside backward scan `while posX > 1 and not(foundposin)`.
Note the source bug kept faithfully: after an `[` at `q` whose `S` check
fails, `posX` has been reset to `q + 1`, so the loop revisits the same `[`
forever — fuel exhaustion reports that as `.diverge`. -/
def scanBack (text : Chars) (posins : Nat) : Nat → Nat → InRes
  | 0, _ => .diverge
  | fuel + 1, posX =>
    if 1 < posX then
      let q := posX - 1
      if text.get? q = some '[' then
        match atBracket text posins q with
        | some r => r
        | none => scanBack text posins fuel (q + 1)
      else scanBack text posins fuel q
    else .notFound

/-- The first-reference search `while text[posS+1:].find('S') >= 0`.  The
source re-computes `posS = text.find('S')` from the start of the text on every
iteration, so a rejected first `S` with any later `S` loops forever
(`.diverge`). -/
def scanFirst (text : Chars) : Nat → Int → InRes
  | 0, _ => .diverge
  | fuel + 1, posS =>
    if 0 ≤ pyFind (text.drop (posS + 1).toNat) 'S' then
      let posS2 := pyFind text 'S'
      if posS2 = 0 ∨ ∃ c, text.get? (posS2.toNat - 1) = some c ∧ c ∈ separators
      then
        if (text.take posS2.toNat).count dquoteChar % 2 = 1 ∨
            (text.take posS2.toNat).count quoteChar % 2 = 1 then
          scanFirst text fuel posS2
        else
          match text.get? (posS2.toNat + 1) with
          | none => .exn
          | some c1 =>
            if c1 ∈ [' ', tabChar, '['] then
              match wsLbSkipFwdAux (text.drop (posS2.toNat + 1)) with
              | none => .exn
              | some skip =>
                let posX := posS2.toNat + 1 + skip
                let str1 := findpos (text.drop posX)
                let posY := posX + str1.length + 1
                let str2 := findpos (text.drop posY)
                .found ⟨posX, posY, str1, str2,
                  testXorYabsrel 'X' str1, testXorYabsrel 'Y' str2⟩
            else scanFirst text fuel posS2
      else scanFirst text fuel posS2
    else .notFound

/-- The `if foundposin or foundposout:` rewrite block of `OnF4`: the
Excel-style cycle ladder over `(abs1[0], abs2[0])`, splicing rewritten
components back into `text`, then `return text, posX` (cursor-inside) or
`return text, 0` (first-reference).  `Except.error ()` stands for any uncaught
Python exception raised while rewriting (all exceptions are collapsed to the
single outcome `exn`, so evaluation order inside a branch is immaterial). -/
def rewritePhase (text : Chars) (posCursor : Int × Int) (f : Found)
    (foundposin : Bool) : Out :=
  let r : Except Unit Chars :=
    if f.abs1.get? 0 = some 'A' ∧ f.abs2.get? 0 = some 'A' then
      match f.abs1.get? 1, f.abs2.get? 1 with
      | some x1, some x2 =>
        match makeXorYrelorabs x1 ['r', 'e', 'l'] f.str1 posCursor,
            text.get? (f.posX + f.str1.length),
            makeXorYrelorabs x2 ['r', 'e', 'l'] f.str2 posCursor with
        | some u, some ch, some w =>
          Except.ok (text.take f.posX ++ u ++
            ch :: (w ++ text.drop (f.posY + f.str2.length)))
        | _, _, _ => Except.error ()
      | _, _ => Except.error ()
    else if f.abs1.get? 0 = some 'R' ∧ f.abs2.get? 0 = some 'R' then
      match f.abs2.get? 1 with
      | some x2 =>
        match makeXorYrelorabs x2 ['a', 'b', 's'] f.str2 posCursor with
        | some w =>
          Except.ok (text.take f.posY ++ w ++
            text.drop (f.posY + f.str2.length))
        | none => Except.error ()
      | none => Except.error ()
    else if f.abs1.get? 0 = some 'R' ∧ f.abs2.get? 0 = some 'A' then
      match f.abs1.get? 1, f.abs2.get? 1 with
      | some x1, some x2 =>
        match makeXorYrelorabs x1 ['a', 'b', 's'] f.str1 posCursor,
            text.get? (f.posX + f.str1.length),
            makeXorYrelorabs x2 ['r', 'e', 'l'] f.str2 posCursor with
        | some u, some ch, some w =>
          Except.ok (text.take f.posX ++ u ++
            ch :: (w ++ text.drop (f.posY + f.str2.length)))
        | _, _, _ => Except.error ()
      | _, _ => Except.error ()
    else if f.abs1.get? 0 = some 'A' ∧ f.abs2.get? 0 = some 'R' then
      match f.abs2.get? 1 with
      | some x2 =>
        match makeXorYrelorabs x2 ['a', 'b', 's'] f.str2 posCursor with
        | some w =>
          Except.ok (text.take f.posY ++ w ++
            text.drop (f.posY + f.str2.length))
        | none => Except.error ()
      | none => Except.error ()
    else if f.abs1.get? 0 = some 'A' then
      match f.abs1.get? 1 with
      | some x1 =>
        match makeXorYrelorabs x1 ['r', 'e', 'l'] f.str1 posCursor with
        | some u =>
          Except.ok (text.take f.posX ++ u ++
            text.drop (f.posX + f.str1.length))
        | none => Except.error ()
      | none => Except.error ()
    else if f.abs2.get? 0 = some 'A' then
      match f.abs2.get? 1 with
      | some x2 =>
        match makeXorYrelorabs x2 ['r', 'e', 'l'] f.str2 posCursor with
        | some w =>
          Except.ok (text.take f.posY ++ w ++
            text.drop (f.posY + f.str2.length))
        | none => Except.error ()
      | none => Except.error ()
    else if f.abs1.get? 0 = some 'R' then
      match f.abs1.get? 1 with
      | some x1 =>
        match makeXorYrelorabs x1 ['a', 'b', 's'] f.str1 posCursor with
        | some u =>
          Except.ok (text.take f.posX ++ u ++
            text.drop (f.posX + f.str1.length))
        | none => Except.error ()
      | none => Except.error ()
    else if f.abs2.get? 0 = some 'R' then
      match f.abs2.get? 1 with
      | some x2 =>
        match makeXorYrelorabs x2 ['a', 'b', 's'] f.str2 posCursor with
        | some w =>
          Except.ok (text.take f.posY ++ w ++
            text.drop (f.posY + f.str2.length))
        | none => Except.error ()
      | none => Except.error ()
    else Except.ok text
  match r with
  | Except.error _ => .exn
  | Except.ok t => if foundposin then .ret t f.posX else .ret t 0

/-- `OnF4` with explicit fuel for its two potentially non-terminating search
loops. -/
def OnF4fuel (fuel : Nat) (text : Chars) (posins : Nat)
    (posCursor : Int × Int) : Out :=
  let inRes : InRes :=
    if 1 < posins ∧ posins < text.length then scanBack text posins fuel posins
    else .notFound
  match inRes with
  | .diverge => .diverge
  | .exn => .exn
  | .found f => rewritePhase text posCursor f true
  | .notFound =>
    match scanFirst text fuel (-1) with
    | .diverge => .diverge
    | .exn => .exn
    | .found f => rewritePhase text posCursor f false
    | .notFound => .retNone

/-- `OnF4` from the source.  The fuel `text.length + 2` is sufficient for
every terminating execution of both search loops, so `.diverge` appears
exactly when the source loops forever. -/
def OnF4 (text : Chars) (posins : Nat) (posCursor : Int × Int) : Out :=
  OnF4fuel (text.length + 2) text posins posCursor

example : OnF4 "S[3, 4]".toList 3 (0, 0) =
    .ret "S[X + 3,Y + 4]".toList 2 := by decide
example : OnF4 "S[3, 4]".toList 0 (0, 0) =
    .ret "S[X + 3, 4]".toList 0 := by decide
example : OnF4 "S[X + 3,Y + 4]".toList 2 (0, 0) =
    .ret "S[X + 3,4]".toList 2 := by decide
example : OnF4 "S[X + 3,4]".toList 2 (0, 0) =
    .ret "S[3,Y + 4]".toList 2 := by decide
example : OnF4 "S[3,Y + 4]".toList 2 (0, 0) =
    .ret "S[3,4]".toList 2 := by decide
example : OnF4 "S[3,4]".toList 2 (0, 0) =
    .ret "S[X + 3,Y + 4]".toList 2 := by decide
example : OnF4 "hello world".toList 4 (0, 0) = .retNone := by decide
example : OnF4 "S[3, 4".toList 3 (0, 0) = .exn := by decide
example : OnF4 "S".toList 0 (0, 0) = .exn := by decide
example : OnF4 "S[".toList 0 (0, 0) = .exn := by decide
example : OnF4 "aS bS".toList 0 (0, 0) = .diverge := by decide
example : OnF4 "a[b]cd".toList 3 (0, 0) = .diverge := by decide
example : OnF4 "S[X!, Y!]".toList 4 (0, 0) = .ret "S[X!, Y!]".toList 2 := by decide
example : OnF4 "S[X+1, Y-2]".toList 4 (5, 5) =
    .ret "S[X+1,3]".toList 2 := by decide

/-- Characters that are inert for all the scanners involved: not a comma,
colon, opening bracket, or closing square bracket. -/
def plainChar (c : Char) : Prop := c ∉ ([',', ':', '(', '[', '{', ']'] : Chars)

instance (c : Char) : Decidable (plainChar c) := by
  unfold plainChar; infer_instance

/-- The canonical reference text `S[<s1>,<s2>]`. -/
def sref (s1 s2 : Chars) : Chars := 'S' :: '[' :: (s1 ++ ',' :: (s2 ++ [']']))

/-!  Spec-side definitions used to state corrected claims.  -/

/-- Modelled from the spec (for comparison in C7): the index of the first
comma occurring at bracket-nesting level 0 and not inside a single- or
double-quoted run, with a standard nesting counter and quote state. -/
def specCommaIdx : Chars → Nat → Option Char → Option Nat
  | [], _, _ => none
  | c :: cs, lvl, some qc =>
    (if c = qc then specCommaIdx cs lvl none
     else specCommaIdx cs lvl (some qc)).map (· + 1)
  | c :: cs, lvl, none =>
    if c = ',' ∧ lvl = 0 then some 0
    else
      (if c ∈ ['(', '[', '{'] then specCommaIdx cs (lvl + 1) none
       else if c ∈ [')', ']', '}'] then specCommaIdx cs (lvl - 1) none
       else if c = quoteChar ∨ c = dquoteChar then specCommaIdx cs lvl (some c)
       else specCommaIdx cs lvl none).map (· + 1)

/-- The exact textual shape produced by `makeXorYrel` for value difference
`d`: `"<v> + <d>"` when `0 < d`, else `"<v> - <-d>"`. -/
def relText (v : Char) (d : Int) : Chars :=
  if 0 < d then v :: ' ' :: '+' :: ' ' :: intToChars d
  else v :: ' ' :: '-' :: ' ' :: intToChars (-d)

example : specCommaIdx "(a),b".toList 0 none = some 3 := by decide
example : relText 'X' 3 = "X + 3".toList := by decide
example : relText 'Y' (-2) = "Y - 2".toList := by decide

/-!  Lemma library.  -/

theorem isDig_digitChar (n : Nat) : isDig (digitChar n) = true := by
  unfold digitChar
  split_ifs <;> decide

theorem digitVal_digitChar (n : Nat) (h : n < 10) :
    digitVal (digitChar n) = n := by
  interval_cases n <;> decide

theorem natToCharsAux_congr (n : Nat) :
    ∀ f g, n < f → n < g → natToCharsAux f n = natToCharsAux g n := by
  induction n using Nat.strong_induction_on with
  | _ n ih =>
    intro f g hf hg
    cases f with
    | zero => omega
    | succ f =>
      cases g with
      | zero => omega
      | succ g =>
        simp only [natToCharsAux]
        by_cases h : n < 10
        · simp [h]
        · have hd : n / 10 < n := Nat.div_lt_self (by omega) (by omega)
          simp only [if_neg h]
          rw [ih (n / 10) hd f g (by omega) (by omega)]

theorem natToChars_eq (n : Nat) :
    natToChars n =
      if n < 10 then [digitChar n]
      else natToChars (n / 10) ++ [digitChar (n % 10)] := by
  by_cases h : n < 10
  · simp only [natToChars, natToCharsAux, if_pos h]
  · have hd : n / 10 < n := Nat.div_lt_self (by omega) (by omega)
    have h1 : natToChars n = natToCharsAux n (n / 10) ++ [digitChar (n % 10)] := by
      simp only [natToChars, natToCharsAux, if_neg h]
    rw [h1, if_neg h,
      natToCharsAux_congr (n / 10) n (n / 10 + 1) hd (by omega)]
    rfl

theorem natToChars_digits (n : Nat) : ∀ c ∈ natToChars n, isDig c = true := by
  induction n using Nat.strong_induction_on with
  | _ n ih =>
    rw [natToChars_eq]
    by_cases h : n < 10
    · simp only [if_pos h, List.mem_singleton]
      rintro c rfl
      exact isDig_digitChar n
    · have hd : n / 10 < n := Nat.div_lt_self (by omega) (by omega)
      simp only [if_neg h, List.mem_append, List.mem_singleton]
      rintro c (hc | rfl)
      · exact ih (n / 10) hd c hc
      · exact isDig_digitChar (n % 10)

theorem natToChars_ne_nil (n : Nat) : natToChars n ≠ [] := by
  rw [natToChars_eq]
  by_cases h : n < 10 <;> simp [h]

theorem digitsValAux_append (a b : Chars) :
    ∀ acc, digitsValAux (a ++ b) acc =
      (digitsValAux a acc).bind (fun x => digitsValAux b x) := by
  induction a with
  | nil => intro acc; simp [digitsValAux]
  | cons c cs ih =>
    intro acc
    simp only [List.cons_append, digitsValAux]
    by_cases h : isDig c = true
    · simp [h, ih]
    · simp [h]

theorem digitsValAux_natToChars (n : Nat) :
    ∀ acc, digitsValAux (natToChars n) acc =
      some (acc * 10 ^ (natToChars n).length + n) := by
  induction n using Nat.strong_induction_on with
  | _ n ih =>
    intro acc
    rw [natToChars_eq]
    by_cases h : n < 10
    · simp only [if_pos h, digitsValAux, isDig_digitChar, if_true,
        digitVal_digitChar n h, List.length_singleton]
      congr 1
      ring
    · have hd : n / 10 < n := Nat.div_lt_self (by omega) (by omega)
      simp only [if_neg h, digitsValAux_append, ih (n / 10) hd acc,
        Option.some_bind, List.length_append, List.length_singleton]
      simp only [digitsValAux, isDig_digitChar, if_true,
        digitVal_digitChar (n % 10) (by omega)]
      rw [pow_succ, ← mul_assoc]
      congr 1
      set L := (natToChars (n / 10)).length with hL
      set K := (10 : Nat) ^ L with hK
      set M := acc * K with hM
      omega

theorem digitsVal_natToChars (n : Nat) : digitsVal (natToChars n) = some n := by
  have h1 := natToChars_ne_nil n
  have h2 := digitsValAux_natToChars n 0
  cases hE : natToChars n with
  | nil => exact absurd hE h1
  | cons c cs =>
    rw [hE] at h2
    simpa [digitsVal] using h2

theorem isDig_not_ws (c : Char) (h : isDig c = true) : isPyWs c = false := by
  have h32 : c ≠ ' ' := fun hc => by rw [hc] at h; exact absurd h (by decide)
  have h9 : c ≠ Char.ofNat 9 := fun hc => by
    rw [hc] at h; exact absurd h (by decide)
  have h10 : c ≠ Char.ofNat 10 := fun hc => by
    rw [hc] at h; exact absurd h (by decide)
  have h13 : c ≠ Char.ofNat 13 := fun hc => by
    rw [hc] at h; exact absurd h (by decide)
  have h11 : c ≠ Char.ofNat 11 := fun hc => by
    rw [hc] at h; exact absurd h (by decide)
  have h12 : c ≠ Char.ofNat 12 := fun hc => by
    rw [hc] at h; exact absurd h (by decide)
  unfold isPyWs
  simp [h32, h9, h10, h13, h11, h12]

theorem isDig_ne_minus (c : Char) (h : isDig c = true) : c ≠ '-' :=
  fun hc => by rw [hc] at h; exact absurd h (by decide)

theorem isDig_ne_plus (c : Char) (h : isDig c = true) : c ≠ '+' :=
  fun hc => by rw [hc] at h; exact absurd h (by decide)

theorem isDig_plain (c : Char) (h : isDig c = true) : plainChar c := by
  intro hmem
  simp only [List.mem_cons, List.not_mem_nil, or_false] at hmem
  rcases hmem with rfl | rfl | rfl | rfl | rfl | rfl <;>
    exact absurd h (by decide)

theorem dropWhile_eq_self_of_false {p : Char → Bool} (l : Chars)
    (h : ∀ c ∈ l, p c = false) : l.dropWhile p = l := by
  cases l with
  | nil => rfl
  | cons a l => simp [List.dropWhile_cons, h a (List.mem_cons_self a l)]

theorem pyStrip_of_false (l : Chars) (h : ∀ c ∈ l, isPyWs c = false) :
    pyStrip l = l := by
  unfold pyStrip
  rw [dropWhile_eq_self_of_false l h,
    dropWhile_eq_self_of_false l.reverse
      (fun c hc => h c (List.mem_reverse.mp hc)),
    List.reverse_reverse]

theorem pyStrip_digits (l : Chars) (h : ∀ c ∈ l, isDig c = true) :
    pyStrip l = l :=
  pyStrip_of_false l (fun c hc => isDig_not_ws c (h c hc))

theorem pyInt_natToChars (n : Nat) : pyInt (natToChars n) = some (n : Int) := by
  have hd := natToChars_digits n
  have hs : pyStrip (natToChars n) = natToChars n := pyStrip_digits _ hd
  cases hE : natToChars n with
  | nil => exact absurd hE (natToChars_ne_nil n)
  | cons c cs =>
    rw [hE] at hs
    have hc : isDig c = true := by
      apply hd
      rw [hE]; exact List.mem_cons_self c cs
    simp only [pyInt, hE, hs, if_neg (isDig_ne_minus c hc),
      if_neg (isDig_ne_plus c hc)]
    rw [← hE, digitsVal_natToChars]
    rfl

theorem dropWhile_append_singleton {p : Char → Bool} (xs : Chars) (b : Char)
    (hb : p b = false) : (xs ++ [b]).dropWhile p = xs.dropWhile p ++ [b] := by
  induction xs with
  | nil => simp [List.dropWhile_cons, hb]
  | cons x xs ih =>
    simp only [List.cons_append, List.dropWhile_cons]
    by_cases h : p x = true
    · simp [h, ih]
    · simp only [Bool.not_eq_true] at h
      simp [h]

theorem pyStrip_cons (v : Char) (rest : Chars) (h : isPyWs v = false) :
    pyStrip (v :: rest) = v :: (rest.reverse.dropWhile isPyWs).reverse := by
  unfold pyStrip
  rw [List.dropWhile_cons]
  simp only [h, Bool.false_eq_true, if_false, List.reverse_cons,
    dropWhile_append_singleton rest.reverse v h, List.reverse_append,
    List.reverse_reverse]
  rfl

theorem pyInt_head_bad (v : Char) (rest : Chars) (h1 : isPyWs v = false)
    (h2 : v ≠ '-') (h3 : v ≠ '+') (h4 : isDig v = false) :
    pyInt (v :: rest) = none := by
  rw [pyInt, pyStrip_cons v rest h1]
  simp only [if_neg h2, if_neg h3]
  simp [digitsVal, digitsValAux, h4]

theorem pyInt_intToChars (n : Int) : pyInt (intToChars n) = some n := by
  by_cases h : n < 0
  · have hdig := natToChars_digits (-n).toNat
    simp only [intToChars, if_pos h]
    rw [pyInt, pyStrip_cons '-' (natToChars (-n).toNat) (by decide)]
    rw [dropWhile_eq_self_of_false _
      (fun c hc => isDig_not_ws c (hdig c (List.mem_reverse.mp hc))),
      List.reverse_reverse]
    simp [digitsVal_natToChars]
    omega
  · simp only [intToChars, if_neg h]
    rw [pyInt_natToChars]
    congr 1
    omega

theorem pyFindAux_not_mem (l : Chars) (ch : Char) (h : ch ∉ l) :
    ∀ i, pyFindAux l ch i = -1 := by
  induction l with
  | nil => intro i; rfl
  | cons c cs ih =>
    intro i
    have hne : c ≠ ch := fun hc => h (hc ▸ List.mem_cons_self c cs)
    rw [pyFindAux, if_neg hne]
    exact ih (fun hm => h (List.mem_cons_of_mem c hm)) (i + 1)

theorem pyFind_not_mem (l : Chars) (ch : Char) (h : ch ∉ l) :
    pyFind l ch = -1 :=
  pyFindAux_not_mem l ch h 0

theorem pyFindAux_nonneg (l : Chars) (ch : Char) (h : ch ∈ l) :
    ∀ i, 0 ≤ pyFindAux l ch i := by
  induction l with
  | nil => exact absurd h (List.not_mem_nil ch)
  | cons c cs ih =>
    intro i
    rw [pyFindAux]
    by_cases hc : c = ch
    · simp [hc]
    · rw [if_neg hc]
      exact ih ((List.mem_cons.mp h).resolve_left (fun he => hc he.symm)) (i + 1)

theorem pyFind_nonneg_iff (l : Chars) (ch : Char) :
    0 ≤ pyFind l ch ↔ ch ∈ l := by
  constructor
  · intro h
    by_contra hm
    rw [pyFind_not_mem l ch hm] at h
    omega
  · intro h
    exact pyFindAux_nonneg l ch h 0

theorem pyFind_cons_self (c : Char) (cs : Chars) : pyFind (c :: cs) c = 0 := by
  simp [pyFind, pyFindAux]

theorem substFirst0_cons (v : Char) (rest : Chars) :
    substFirst0 v (v :: rest) = '0' :: rest := by
  unfold substFirst0
  rw [pyFind_cons_self]
  simp

theorem dropWhile_cons_of_false {p : Char → Bool} (a : Char) (l : Chars)
    (h : p a = false) : (a :: l).dropWhile p = a :: l := by
  simp [List.dropWhile_cons, h]

theorem takeWhile_eq_self_of_true {p : Char → Bool} (l : Chars)
    (h : ∀ c ∈ l, p c = true) : l.takeWhile p = l := by
  induction l with
  | nil => rfl
  | cons a l ih =>
    rw [List.takeWhile_cons, if_pos (h a (List.mem_cons_self a l))]
    rw [ih (fun c hc => h c (List.mem_cons_of_mem a hc))]

theorem dropWhile_eq_nil_of_true {p : Char → Bool} (l : Chars)
    (h : ∀ c ∈ l, p c = true) : l.dropWhile p = [] := by
  induction l with
  | nil => rfl
  | cons a l ih =>
    rw [List.dropWhile_cons, if_pos (h a (List.mem_cons_self a l))]
    exact ih (fun c hc => h c (List.mem_cons_of_mem a hc))

theorem parseNum_natToChars (m : Nat) :
    parseNum (natToChars m) = some ((m : Int), []) := by
  unfold parseNum
  rw [takeWhile_eq_self_of_true _ (natToChars_digits m),
    dropWhile_eq_nil_of_true _ (natToChars_digits m), digitsVal_natToChars]

theorem natToChars_dropWhile_ws (m : Nat) :
    (natToChars m).dropWhile isPyWs = natToChars m := by
  apply dropWhile_eq_self_of_false
  exact fun c hc => isDig_not_ws c (natToChars_digits m c hc)

theorem parseAtom_digits (f : Nat) (m : Nat) (s : Chars)
    (hs : s.dropWhile isPyWs = natToChars m) :
    parseAtom (f + 1) s = some ((m : Int), []) := by
  obtain ⟨d, ds, hE⟩ : ∃ d ds, natToChars m = d :: ds := by
    cases hE : natToChars m with
    | nil => exact absurd hE (natToChars_ne_nil m)
    | cons d ds => exact ⟨d, ds, rfl⟩
  have hd : isDig d = true := by
    apply natToChars_digits m
    rw [hE]; exact List.mem_cons_self d ds
  have h1 : d ≠ '-' := isDig_ne_minus d hd
  have h2 : d ≠ '+' := isDig_ne_plus d hd
  have h3 : d ≠ '(' := fun hc => by rw [hc] at hd; exact absurd hd (by decide)
  simp only [parseAtom, hs, hE, if_neg h1, if_neg h2, if_neg h3]
  rw [← hE, parseNum_natToChars]

theorem termLoop_nil (f : Nat) (v : Int) :
    termLoop (f + 1) v [] = some (v, []) := rfl

theorem exprLoop_nil (f : Nat) (v : Int) :
    exprLoop (f + 1) v [] = some (v, []) := rfl

theorem parseTerm_digits (f : Nat) (m : Nat) (s : Chars)
    (hs : s.dropWhile isPyWs = natToChars m) :
    parseTerm (f + 2) s = some ((m : Int), []) := by
  simp only [parseTerm, parseAtom_digits (f := f) (m := m) (s := s) hs]
  exact termLoop_nil f _

theorem parseNum_zero (rest : Chars) :
    parseNum ('0' :: ' ' :: rest) = some ((0 : Int), ' ' :: rest) := by
  simp [parseNum, List.takeWhile_cons, List.dropWhile_cons, isDig,
    digitsVal, digitsValAux, digitVal]

theorem parseAtom_zero (f : Nat) (rest : Chars) :
    parseAtom (f + 1) ('0' :: ' ' :: rest) = some ((0 : Int), ' ' :: rest) := by
  have hws : ('0' :: ' ' :: rest).dropWhile isPyWs = '0' :: ' ' :: rest :=
    dropWhile_cons_of_false '0' _ (by decide)
  simp only [parseAtom, hws, if_neg (by decide : ¬('0' : Char) = '-'),
    if_neg (by decide : ¬('0' : Char) = '+'),
    if_neg (by decide : ¬('0' : Char) = '(')]
  exact parseNum_zero rest

theorem termLoop_sign (f : Nat) (v : Int) (c : Char) (rest : Chars)
    (hc : c ≠ '*') (hcw : isPyWs c = false) :
    termLoop (f + 1) v (' ' :: c :: rest) = some (v, ' ' :: c :: rest) := by
  have hws : (' ' :: c :: rest).dropWhile isPyWs = c :: rest := by
    rw [List.dropWhile_cons, if_pos (by decide), dropWhile_cons_of_false c rest hcw]
  simp only [termLoop, hws, if_neg hc]

theorem exprLoop_plus_digits (f : Nat) (v : Int) (m : Nat) :
    exprLoop (f + 3) v (' ' :: '+' :: ' ' :: natToChars m)
      = some (v + (m : Int), []) := by
  have hws : (' ' :: '+' :: ' ' :: natToChars m).dropWhile isPyWs
      = '+' :: ' ' :: natToChars m := by
    rw [List.dropWhile_cons, if_pos (by decide),
      dropWhile_cons_of_false '+' _ (by decide)]
  have hterm : parseTerm (f + 2) (' ' :: natToChars m)
      = some ((m : Int), []) := by
    apply parseTerm_digits
    rw [List.dropWhile_cons, if_pos (by decide), natToChars_dropWhile_ws]
  simp only [exprLoop, hws, if_pos rfl, hterm]
  exact exprLoop_nil (f + 1) _

theorem exprLoop_minus_digits (f : Nat) (v : Int) (m : Nat) :
    exprLoop (f + 3) v (' ' :: '-' :: ' ' :: natToChars m)
      = some (v - (m : Int), []) := by
  have hws : (' ' :: '-' :: ' ' :: natToChars m).dropWhile isPyWs
      = '-' :: ' ' :: natToChars m := by
    rw [List.dropWhile_cons, if_pos (by decide),
      dropWhile_cons_of_false '-' _ (by decide)]
  have hterm : parseTerm (f + 2) (' ' :: natToChars m)
      = some ((m : Int), []) := by
    apply parseTerm_digits
    rw [List.dropWhile_cons, if_pos (by decide), natToChars_dropWhile_ws]
  simp only [exprLoop, hws, if_neg (by decide : ¬('-' : Char) = '+'),
    if_pos rfl, hterm]
  exact exprLoop_nil (f + 1) _

theorem parseExpr_zero_plus (f : Nat) (m : Nat) :
    parseExpr (f + 5) ('0' :: ' ' :: '+' :: ' ' :: natToChars m)
      = some ((0 : Int) + m, []) := by
  have hterm : parseTerm (f + 4) ('0' :: ' ' :: '+' :: ' ' :: natToChars m)
      = some ((0 : Int), ' ' :: '+' :: ' ' :: natToChars m) := by
    simp only [parseTerm, parseAtom_zero (f + 2) ('+' :: ' ' :: natToChars m)]
    exact termLoop_sign (f + 2) 0 '+' _ (by decide) (by decide)
  simp only [parseExpr, hterm]
  exact exprLoop_plus_digits (f + 1) 0 m

theorem parseExpr_zero_minus (f : Nat) (m : Nat) :
    parseExpr (f + 5) ('0' :: ' ' :: '-' :: ' ' :: natToChars m)
      = some ((0 : Int) - m, []) := by
  have hterm : parseTerm (f + 4) ('0' :: ' ' :: '-' :: ' ' :: natToChars m)
      = some ((0 : Int), ' ' :: '-' :: ' ' :: natToChars m) := by
    simp only [parseTerm, parseAtom_zero (f + 2) ('-' :: ' ' :: natToChars m)]
    exact termLoop_sign (f + 2) 0 '-' _ (by decide) (by decide)
  simp only [parseExpr, hterm]
  exact exprLoop_minus_digits (f + 1) 0 m

theorem pyEval_zero_plus (m : Nat) :
    pyEval ('0' :: ' ' :: '+' :: ' ' :: natToChars m) = some ((m : Int)) := by
  have hlen : 2 * ('0' :: ' ' :: '+' :: ' ' :: natToChars m).length + 8
      = (2 * (natToChars m).length + 11) + 5 := by
    simp only [List.length_cons]; omega
  simp only [pyEval, hlen, parseExpr_zero_plus]
  norm_num

theorem pyEval_zero_minus (m : Nat) :
    pyEval ('0' :: ' ' :: '-' :: ' ' :: natToChars m) = some (-(m : Int)) := by
  have hlen : 2 * ('0' :: ' ' :: '-' :: ' ' :: natToChars m).length + 8
      = (2 * (natToChars m).length + 11) + 5 := by
    simp only [List.length_cons]; omega
  simp only [pyEval, hlen, parseExpr_zero_minus]
  norm_num

theorem relText_eq_plus (v : Char) (d : Int) (h : 0 < d) :
    relText v d = v :: ' ' :: '+' :: ' ' :: natToChars d.toNat := by
  rw [relText, if_pos h, intToChars, if_neg (by omega : ¬d < 0)]

theorem relText_eq_minus (v : Char) (d : Int) (h : ¬0 < d) :
    relText v d = v :: ' ' :: '-' :: ' ' :: natToChars (-d).toNat := by
  rw [relText, if_neg h, intToChars, if_neg (by omega : ¬-d < 0)]

theorem pyEval_substFirst0_relText (v : Char) (d : Int) :
    pyEval (substFirst0 v (relText v d)) = some d := by
  by_cases h : 0 < d
  · rw [relText_eq_plus v d h, substFirst0_cons, pyEval_zero_plus]
    congr 1
    omega
  · rw [relText_eq_minus v d h, substFirst0_cons, pyEval_zero_minus]
    congr 1
    omega

theorem pyInt_relText_none (v : Char) (hv : v = 'X' ∨ v = 'Y') (d : Int) :
    pyInt (relText v d) = none := by
  have hws : isPyWs v = false := by rcases hv with rfl | rfl <;> decide
  have h2 : v ≠ '-' := by rcases hv with rfl | rfl <;> decide
  have h3 : v ≠ '+' := by rcases hv with rfl | rfl <;> decide
  have h4 : isDig v = false := by rcases hv with rfl | rfl <;> decide
  by_cases h : 0 < d
  · rw [relText_eq_plus v d h]
    exact pyInt_head_bad v _ hws h2 h3 h4
  · rw [relText_eq_minus v d h]
    exact pyInt_head_bad v _ hws h2 h3 h4

theorem pyFind_relText (v : Char) (d : Int) : pyFind (relText v d) v = 0 := by
  by_cases h : 0 < d
  · rw [relText_eq_plus v d h]; exact pyFind_cons_self v _
  · rw [relText_eq_minus v d h]; exact pyFind_cons_self v _

theorem testXorYabsrel_relText (v : Char) (hv : v = 'X' ∨ v = 'Y') (d : Int) :
    testXorYabsrel v (relText v d) = ['R', v] := by
  simp only [testXorYabsrel, pyInt_relText_none v hv d]
  rw [if_pos (by rw [pyFind_relText])]
  rw [pyEval_substFirst0_relText]

theorem testXorYabsrel_intToChars (v : Char) (nval : Int) :
    testXorYabsrel v (intToChars nval) = ['A', v] := by
  simp only [testXorYabsrel, pyInt_intToChars]

theorem makeXorYrel_intToChars (v : Char) (nval px py : Int) :
    makeXorYrel v (intToChars nval) (px, py)
      = some (relText v (nval - (if v = 'X' then px else py))) := by
  simp only [makeXorYrel, pyInt_intToChars, Option.map_some']
  rfl

theorem makeXorYabs_relText (v : Char) (d px py : Int) :
    makeXorYabs v (relText v d) (px, py)
      = some (intToChars (d + (if v = 'X' then px else py))) := by
  simp only [makeXorYabs, pyEval_substFirst0_relText, Option.map_some']

theorem plain_natToChars (m : Nat) : ∀ c ∈ natToChars m, plainChar c :=
  fun c hc => isDig_plain c (natToChars_digits m c hc)

theorem plain_intToChars (n : Int) : ∀ c ∈ intToChars n, plainChar c := by
  intro c hc
  rw [intToChars] at hc
  by_cases h : n < 0
  · rw [if_pos h] at hc
    rcases List.mem_cons.mp hc with rfl | hc2
    · decide
    · exact plain_natToChars _ c hc2
  · rw [if_neg h] at hc
    exact plain_natToChars _ c hc

theorem plain_relText (v : Char) (hv : v = 'X' ∨ v = 'Y') (d : Int) :
    ∀ c ∈ relText v d, plainChar c := by
  have hvp : plainChar v := by rcases hv with rfl | rfl <;> decide
  intro c hc
  by_cases h : 0 < d
  · rw [relText_eq_plus v d h] at hc
    rcases List.mem_cons.mp hc with rfl | hc
    · exact hvp
    · rcases List.mem_cons.mp hc with rfl | hc
      · decide
      · rcases List.mem_cons.mp hc with rfl | hc
        · decide
        · rcases List.mem_cons.mp hc with rfl | hc
          · decide
          · exact plain_natToChars _ c hc
  · rw [relText_eq_minus v d h] at hc
    rcases List.mem_cons.mp hc with rfl | hc
    · exact hvp
    · rcases List.mem_cons.mp hc with rfl | hc
      · decide
      · rcases List.mem_cons.mp hc with rfl | hc
        · decide
        · rcases List.mem_cons.mp hc with rfl | hc
          · decide
          · exact plain_natToChars _ c hc

theorem plainChar_facts (c : Char) (h : plainChar c) :
    c ≠ ',' ∧ c ≠ ':' ∧ c ≠ '(' ∧ c ≠ '[' ∧ c ≠ '{' ∧ c ≠ ']' := by
  unfold plainChar at h
  simp only [List.mem_cons, List.not_mem_nil, or_false, not_or] at h
  exact h

theorem findposIdx_plain_comma (A : Chars) (h : ∀ c ∈ A, plainChar c) :
    ∀ f, A.length < f → ∀ rest, findposIdx f (A ++ ',' :: rest) = some A.length := by
  induction A with
  | nil =>
    intro f hf rest
    cases f with
    | zero => omega
    | succ f => simp [findposIdx]
  | cons a A ih =>
    intro f hf rest
    cases f with
    | zero => omega
    | succ f =>
      obtain ⟨h1, _, h3, h4, h5, _⟩ :=
        plainChar_facts a (h a (List.mem_cons_self a A))
      have hop : ¬a ∈ (['(', '[', '{'] : Chars) := by simp [h3, h4, h5]
      simp only [List.cons_append, findposIdx, if_neg h1, if_neg hop,
        List.append_eq]
      rw [ih (fun c hc => h c (List.mem_cons_of_mem a hc)) f
        (by simpa using Nat.lt_of_succ_lt_succ hf) rest]
      simp

theorem findposIdx_plain_none (B : Chars) (h : ∀ c ∈ B, plainChar c) :
    ∀ f, findposIdx f B = none := by
  induction B with
  | nil => intro f; cases f <;> rfl
  | cons b B ih =>
    intro f
    cases f with
    | zero => rfl
    | succ f =>
      obtain ⟨h1, _, h3, h4, h5, _⟩ :=
        plainChar_facts b (h b (List.mem_cons_self b B))
      have hop : ¬b ∈ (['(', '[', '{'] : Chars) := by simp [h3, h4, h5]
      simp only [findposIdx, if_neg h1, if_neg hop, List.append_eq]
      rw [ih (fun c hc => h c (List.mem_cons_of_mem b hc)) f]

theorem findpos_plain_comma (A : Chars) (h : ∀ c ∈ A, plainChar c)
    (rest : Chars) : findpos (A ++ ',' :: rest) = A := by
  unfold findpos
  rw [findposIdx_plain_comma A h ((A ++ ',' :: rest).length + 1)
    (by simp [List.length_append]; omega) rest]
  exact List.take_left A (',' :: rest)

theorem findpos_plain (B : Chars) (h : ∀ c ∈ B, plainChar c) :
    findpos B = B := by
  unfold findpos
  rw [findposIdx_plain_none B h]

theorem findcolonIdx_plain (B : Chars) (h : ∀ c ∈ B, plainChar c) :
    ∀ f lvl, findcolonIdx f lvl B = (none, lvl) := by
  induction B with
  | nil => intro f lvl; cases f <;> rfl
  | cons b B ih =>
    intro f lvl
    cases f with
    | zero => rfl
    | succ f =>
      obtain ⟨_, h2, h3, h4, h5, _⟩ :=
        plainChar_facts b (h b (List.mem_cons_self b B))
      have hop : ¬b ∈ (['(', '[', '{'] : Chars) := by simp [h3, h4, h5]
      simp only [findcolonIdx, if_neg h2, if_neg hop, List.append_eq]
      rw [ih (fun c hc => h c (List.mem_cons_of_mem b hc)) f lvl]

theorem findcolon_plain (A B : Chars) (hA : ∀ c ∈ A, plainChar c)
    (hB : ∀ c ∈ B, plainChar c) : findcolon (A, B) = (-1, -1) := by
  simp only [findcolon]
  rw [findcolonIdx_plain A hA, findcolonIdx_plain B hB]
  rfl

theorem scanRBAux_append (xs ys : Chars) (h : ']' ∉ xs) :
    scanRBAux (xs ++ ']' :: ys) = some xs.length := by
  induction xs with
  | nil => simp [scanRBAux]
  | cons x xs ih =>
    have hx : x ≠ ']' := fun hc => h (hc ▸ List.mem_cons_self x xs)
    have hih := ih (fun hm => h (List.mem_cons_of_mem x hm))
    simp only [List.cons_append, scanRBAux, if_neg hx, List.append_eq, hih,
      Option.map_some', List.length_cons]

theorem sref_length (s1 s2 : Chars) :
    (sref s1 s2).length = s1.length + s2.length + 4 := by
  simp [sref, List.length_append]
  omega

theorem sref_mid (s1 s2 : Chars) :
    s1 ++ ',' :: (s2 ++ [']']) = (s1 ++ ',' :: s2) ++ [']'] := by
  simp

theorem sref_get_ge2 (s1 s2 : Chars) (k : Nat) :
    (sref s1 s2).get? (k + 2) = (s1 ++ ',' :: (s2 ++ [']'])).get? k := rfl

theorem no_rb_mid (s1 s2 : Chars) (hs1 : ∀ c ∈ s1, plainChar c)
    (hs2 : ∀ c ∈ s2, plainChar c) : ']' ∉ s1 ++ ',' :: s2 := by
  intro hm
  rcases List.mem_append.mp hm with hm | hm
  · exact (plainChar_facts _ (hs1 _ hm)).2.2.2.2.2 rfl
  · rcases List.mem_cons.mp hm with he | hm
    · exact absurd he (by decide)
    · exact (plainChar_facts _ (hs2 _ hm)).2.2.2.2.2 rfl

theorem scanBack_to_found (t : Chars) (posins : Nat) (r : InRes)
    (h1 : t.get? 1 = some '[') (hr : atBracket t posins 1 = some r) :
    ∀ fuel posX, 2 ≤ posX → posX ≤ fuel →
      (∀ j, 2 ≤ j → j < posX → t.get? j ≠ some '[') →
      scanBack t posins fuel posX = r := by
  intro fuel
  induction fuel with
  | zero => intro posX h2 hf hno; omega
  | succ f ih =>
    intro posX h2 hf hno
    simp only [scanBack]
    rw [if_pos (by omega : 1 < posX)]
    by_cases hq : posX = 2
    · subst hq
      rw [show (2 : Nat) - 1 = 1 from rfl, if_pos h1, hr]
    · have hnotlb : t.get? (posX - 1) ≠ some '[' :=
        hno (posX - 1) (by omega) (by omega)
      rw [if_neg hnotlb]
      exact ih (posX - 1) (by omega) (by omega)
        (fun j hj1 hj2 => hno j hj1 (by omega))

theorem atBracket_sref (s1 s2 : Chars) (hs1 : ∀ c ∈ s1, plainChar c)
    (hs2 : ∀ c ∈ s2, plainChar c) (posins : Nat) (h2 : 2 ≤ posins)
    (hhi : posins ≤ s1.length + s2.length + 3) :
    atBracket (sref s1 s2) posins 1 =
      some (InRes.found ⟨2, s1.length + 3, s1, s2,
        testXorYabsrel 'X' s1, testXorYabsrel 'Y' s2⟩) := by
  obtain ⟨k, rfl⟩ : ∃ k, posins = k + 2 := ⟨posins - 2, by omega⟩
  have hNlen : (s1 ++ ',' :: s2).length = s1.length + s2.length + 1 := by
    simp [List.length_append]
    omega
  have hkN : k ≤ (s1 ++ ',' :: s2).length := by omega
  have hdropPos : (sref s1 s2).drop (k + 2)
      = (s1 ++ ',' :: s2).drop k ++ ']' :: [] := by
    show (s1 ++ ',' :: (s2 ++ [']'])).drop k = _
    rw [sref_mid, List.drop_append_eq_append_drop,
      show k - (s1 ++ ',' :: s2).length = 0 from by omega, List.drop_zero]
  have hscan : scanRBAux ((sref s1 s2).drop (k + 2))
      = some ((s1 ++ ',' :: s2).length - k) := by
    rw [hdropPos,
      scanRBAux_append _ _
        (fun hm => no_rb_mid s1 s2 hs1 hs2 (List.mem_of_mem_drop hm)),
      List.length_drop]
  simp only [atBracket]
  rw [if_pos (⟨rfl, Or.inl rfl⟩ :
    (sref s1 s2).get? (wsSkipBack (sref s1 s2) (1 - 1)) = some 'S' ∧
      (wsSkipBack (sref s1 s2) (1 - 1) = 0 ∨
        ∃ c, (sref s1 s2).get? (wsSkipBack (sref s1 s2) (1 - 1) - 1) = some c ∧
          c ∈ separators))]
  rw [hscan]
  have harith1 : k + 2 + (List.length (s1 ++ ',' :: s2) - k) - (1 + 1)
      = List.length (s1 ++ ',' :: s2) := by omega
  have hdrop11 : List.drop (1 + 1) (sref s1 s2) = (s1 ++ ',' :: s2) ++ [']'] := by
    rw [sref, sref_mid]
    rfl
  have htake_mid : List.take (List.length (s1 ++ ',' :: s2))
      ((s1 ++ ',' :: s2) ++ [']']) = s1 ++ ',' :: s2 := List.take_left _ _
  have harith2 : k + 2 + (List.length (s1 ++ ',' :: s2) - k)
      - (1 + 1 + List.length s1 + 1) = List.length s2 := by omega
  have hdropY : List.drop (1 + 1 + List.length s1 + 1) (sref s1 s2)
      = s2 ++ [']'] := by
    rw [sref]
    rw [show 1 + 1 + List.length s1 + 1 = List.length s1 + 1 + 1 + 1 from by
      omega]
    rw [List.drop_succ_cons, List.drop_succ_cons,
      List.drop_append_eq_append_drop, List.drop_eq_nil_of_le (by omega),
      show List.length s1 + 1 - List.length s1 = 1 from by omega]
    simp
  have htakeY : List.take (List.length s2) (s2 ++ [']']) = s2 :=
    List.take_left s2 _
  simp only [harith1, hdrop11, htake_mid, findpos_plain_comma s1 hs1 s2,
    harith2, hdropY, htakeY, findpos_plain s2 hs2,
    findcolon_plain s1 s2 hs1 hs2, if_true]
  simp only [Option.some.injEq, InRes.found.injEq, Found.mk.injEq]
  refine ⟨by norm_num, by omega, trivial, trivial, trivial, trivial⟩

theorem OnF4_sref (s1 s2 : Chars) (hs1 : ∀ c ∈ s1, plainChar c)
    (hs2 : ∀ c ∈ s2, plainChar c) (posins : Nat) (pc : Int × Int)
    (hlo : 1 < posins) (hhi : posins < s1.length + s2.length + 4) :
    OnF4 (sref s1 s2) posins pc =
      rewritePhase (sref s1 s2) pc
        ⟨2, s1.length + 3, s1, s2, testXorYabsrel 'X' s1,
          testXorYabsrel 'Y' s2⟩ true := by
  have hlen := sref_length s1 s2
  have hno : ∀ j, 2 ≤ j → j < posins → (sref s1 s2).get? j ≠ some '[' := by
    intro j hj2 hjlt heq
    obtain ⟨k, rfl⟩ : ∃ k, j = k + 2 := ⟨j - 2, by omega⟩
    rw [sref_get_ge2] at heq
    have hm0 : '[' ∈ s1 ++ ',' :: (s2 ++ [']']) := List.get?_mem heq
    rcases List.mem_append.mp hm0 with hm | hm
    · exact (plainChar_facts _ (hs1 _ hm)).2.2.2.1 rfl
    · rcases List.mem_cons.mp hm with he | hm
      · exact absurd he (by decide)
      · rcases List.mem_append.mp hm with hm2 | hm2
        · exact (plainChar_facts _ (hs2 _ hm2)).2.2.2.1 rfl
        · rcases List.mem_cons.mp hm2 with he | h0
          · exact absurd he (by decide)
          · exact absurd h0 (List.not_mem_nil _)
  have hab := atBracket_sref s1 s2 hs1 hs2 posins (by omega) (by omega)
  unfold OnF4 OnF4fuel
  rw [if_pos (⟨hlo, by rw [hlen]; omega⟩ :
    1 < posins ∧ posins < (sref s1 s2).length)]
  rw [scanBack_to_found (sref s1 s2) posins _ rfl hab
    ((sref s1 s2).length + 2) posins (by omega) (by rw [hlen]; omega) hno]

/-!  Claim theorems.  -/

/-- C2 (counterexample): for text `"S[3, 4]"`, cursor 3, anchor `(0,0)`, the
code rewrites to `"S[X + 3,Y + 4]"` (plus forms, `str2`'s leading space
consumed), not to `"S[X - 3, Y - 4]"` as the claim states. -/
theorem c2_counterexample :
    OnF4 "S[3, 4]".toList 3 (0, 0) = Out.ret "S[X + 3,Y + 4]".toList 2 ∧
    "S[X + 3,Y + 4]".toList ≠ "S[X - 3, Y - 4]".toList := by
  decide

/-- C3: contrary to the claim that a malformed reference (missing `]`) makes
every scan run to the end and degrade to a no-op, `OnF4` raises: with text
`"S[3, 4"` and cursor 3 the `]` scan evaluates `text[temp]` at
`temp = len(text)` (the `temp < len(text)` guard is checked only after the
read), an `IndexError`; `"S["` likewise raises in the first-reference scan. -/
theorem c3_missing_rbracket_raises :
    OnF4 "S[3, 4".toList 3 (0, 0) = Out.exn ∧
    OnF4 "S[".toList 0 (0, 0) = Out.exn := by
  decide

/-- C4: contrary to the claim that `OnF4` terminates on every input, the
first-reference search loop re-computes `posS = text.find('S')` from the text
start each iteration; on `"aS bS"` (cursor 0) the first `S` is rejected (its
predecessor `a` is no separator) while a later `S` keeps the loop condition
true, so the loop never terminates: the embedding exhausts any fuel. -/
theorem c4_first_search_diverges :
    (∀ fuel : Nat, OnF4fuel fuel "aS bS".toList 0 (0, 0) = Out.diverge) ∧
    OnF4 "aS bS".toList 0 (0, 0) = Out.diverge := by
  have key : ∀ f : Nat, scanFirst "aS bS".toList f 1 = InRes.diverge := by
    intro f
    induction f with
    | zero => rfl
    | succ f ih =>
      rw [show scanFirst "aS bS".toList (f + 1) 1
            = scanFirst "aS bS".toList f 1 from rfl, ih]
  have key2 : ∀ f : Nat, scanFirst "aS bS".toList f (-1) = InRes.diverge := by
    intro f
    cases f with
    | zero => rfl
    | succ f =>
      rw [show scanFirst "aS bS".toList (f + 1) (-1)
            = scanFirst "aS bS".toList f 1 from rfl, key f]
  have main : ∀ fuel : Nat,
      OnF4fuel fuel "aS bS".toList 0 (0, 0) = Out.diverge := by
    intro fuel
    unfold OnF4fuel
    rw [if_neg (by decide : ¬(1 < 0 ∧ 0 < "aS bS".toList.length))]
    rw [key2 fuel]
  exact ⟨main, main _⟩

/-- C5 (counterexample): for `"S[X!, Y!]"` with cursor 4 both located
components classify as Complex, yet `OnF4` does not return the `None`
sentinel: it returns the unchanged text with cursor moved to `posX = 2`
(the input cursor 4 is not preserved). -/
theorem c5_counterexample :
    testXorYabsrel 'X' "X!".toList = ['C', 'X'] ∧
    testXorYabsrel 'Y' " Y!".toList = ['C', 'Y'] ∧
    OnF4 "S[X!, Y!]".toList 4 (0, 0) = Out.ret "S[X!, Y!]".toList 2 ∧
    Out.ret "S[X!, Y!]".toList 2 ≠ Out.retNone ∧ (2 : Nat) ≠ 4 := by
  decide

/-- C6 (counterexample): on a component with no axis-name occurrence (and not
an integer literal) the classifier returns the placeholder `"-"`, not the
Complex marker `"C" + axis` the claim asserts. -/
theorem c6_counterexample :
    testXorYabsrel 'X' "foo".toList = ['-'] ∧
    testXorYabsrel 'X' "foo".toList ≠ ['C', 'X'] := by
  decide

/-- C7 (counterexample): `findpos` on `"(a),b"` returns the whole string even
though it contains a comma at standard bracket-nesting level 0 (index 3, per
the spec-side scanner `specCommaIdx`): the source scanner double-counts the
opening bracket, so its level never returns to 0 and the comma is swallowed. -/
theorem c7_counterexample :
    findpos "(a),b".toList = "(a),b".toList ∧
    specCommaIdx "(a),b".toList 0 none = some 3 ∧
    "(a),b".toList.get? 3 = some ',' := by
  decide

/-- C8 (counterexample): the two `findcolon` results are not independent: the
`bracketlevel` counter is shared, so for the second string `"())x:"` the
result is 4 after first string `""` but `-1` after first string `"("`. -/
theorem c8_counterexample :
    (findcolon ("".toList, "())x:".toList)).2 = 4 ∧
    (findcolon ("(".toList, "())x:".toList)).2 = -1 ∧ (4 : Int) ≠ -1 := by
  decide

/-- C10: the cursor-inside search runs only when `1 < posins < len(text)`;
for any other cursor `OnF4` behaves exactly like the first-reference call with
cursor 0.  Concretely on `"S[3, 4]"`: cursors 1 and 7 lie within/at the edge
of the reference yet take the first-reference path (returned cursor 0), while
cursor 3 takes the inside path (returned cursor 2). -/
theorem c10_cursor_guard :
    (∀ (t : Chars) (p : Nat) (pc : Int × Int),
        ¬(1 < p ∧ p < t.length) → OnF4 t p pc = OnF4 t 0 pc) ∧
    OnF4 "S[3, 4]".toList 1 (0, 0) = Out.ret "S[X + 3, 4]".toList 0 ∧
    OnF4 "S[3, 4]".toList 7 (0, 0) = Out.ret "S[X + 3, 4]".toList 0 ∧
    OnF4 "S[3, 4]".toList 3 (0, 0) = Out.ret "S[X + 3,Y + 4]".toList 2 := by
  refine ⟨?_, by decide, by decide, by decide⟩
  intro t p pc h
  unfold OnF4 OnF4fuel
  rw [if_neg h, if_neg (by omega : ¬(1 < 0 ∧ 0 < t.length))]

/-- C10 (witness): the guard part of `c10_cursor_guard` applied at text
`"S[3, 4]"`, cursor 7, anchor `(0,0)`. -/
theorem c10_cursor_guard_witness :
    ¬(1 < 7 ∧ 7 < "S[3, 4]".toList.length) ∧
    OnF4 "S[3, 4]".toList 7 (0, 0) = OnF4 "S[3, 4]".toList 0 (0, 0) :=
  ⟨by decide, c10_cursor_guard.1 "S[3, 4]".toList 7 (0, 0) (by decide)⟩

/-- C9: converting an integer literal to relative form and back with the same
anchor reproduces the literal: for every integer `n`, axis `v ∈ {X, Y}` and
anchor, `makeXorYabs v (makeXorYrel v (str n) anchor) anchor = str n`. -/
theorem c9_roundtrip (n px py : Int) (v : Char) (_hv : v = 'X' ∨ v = 'Y') :
    (makeXorYrel v (intToChars n) (px, py)).bind
      (fun t => makeXorYabs v t (px, py)) = some (intToChars n) := by
  rw [makeXorYrel_intToChars v n px py]
  simp only [Option.some_bind]
  rw [makeXorYabs_relText]
  congr 2
  ring

/-- C9 (witness): the round trip at `n = 5`, axis `X`, anchor `(2, 7)`. -/
theorem c9_roundtrip_witness :
    ('X' = 'X' ∨ 'X' = 'Y') ∧
    (makeXorYrel 'X' (intToChars 5) (2, 7)).bind
      (fun t => makeXorYabs 'X' t (2, 7)) = some (intToChars 5) :=
  ⟨Or.inl rfl, c9_roundtrip 5 2 7 'X' (Or.inl rfl)⟩

theorem rewritePhase_AA (t : Chars) (pc : Int × Int) (pX pY : Nat)
    (s1 s2 u w : Chars) (ch : Char)
    (hu : makeXorYrel 'X' s1 pc = some u)
    (hw : makeXorYrel 'Y' s2 pc = some w)
    (hch : t.get? (pX + s1.length) = some ch) :
    rewritePhase t pc ⟨pX, pY, s1, s2, ['A', 'X'], ['A', 'Y']⟩ true =
      Out.ret (t.take pX ++ u ++ ch :: (w ++ t.drop (pY + s2.length))) pX := by
  rw [List.get?_eq_getElem?] at hch
  simp [rewritePhase, makeXorYrelorabs, hu, hw, hch]

theorem rewritePhase_RR (t : Chars) (pc : Int × Int) (pX pY : Nat)
    (s1 s2 w : Chars)
    (hw : makeXorYabs 'Y' s2 pc = some w) :
    rewritePhase t pc ⟨pX, pY, s1, s2, ['R', 'X'], ['R', 'Y']⟩ true =
      Out.ret (t.take pY ++ w ++ t.drop (pY + s2.length)) pX := by
  simp [rewritePhase, makeXorYrelorabs, hw]

theorem rewritePhase_RA (t : Chars) (pc : Int × Int) (pX pY : Nat)
    (s1 s2 u w : Chars) (ch : Char)
    (hu : makeXorYabs 'X' s1 pc = some u)
    (hw : makeXorYrel 'Y' s2 pc = some w)
    (hch : t.get? (pX + s1.length) = some ch) :
    rewritePhase t pc ⟨pX, pY, s1, s2, ['R', 'X'], ['A', 'Y']⟩ true =
      Out.ret (t.take pX ++ u ++ ch :: (w ++ t.drop (pY + s2.length))) pX := by
  rw [List.get?_eq_getElem?] at hch
  simp [rewritePhase, makeXorYrelorabs, hu, hw, hch]

theorem rewritePhase_AR (t : Chars) (pc : Int × Int) (pX pY : Nat)
    (s1 s2 w : Chars)
    (hw : makeXorYabs 'Y' s2 pc = some w) :
    rewritePhase t pc ⟨pX, pY, s1, s2, ['A', 'X'], ['R', 'Y']⟩ true =
      Out.ret (t.take pY ++ w ++ t.drop (pY + s2.length)) pX := by
  simp [rewritePhase, makeXorYrelorabs, hw]

theorem sref_get_comma (s1 s2 : Chars) :
    (sref s1 s2).get? (2 + s1.length) = some ',' := by
  have hE : sref s1 s2 = ('S' :: '[' :: s1) ++ (',' :: (s2 ++ [']'])) := by
    simp [sref]
  rw [hE, List.get?_eq_getElem?, List.getElem?_append_right (by simp; omega)]
  rw [show 2 + s1.length - ('S' :: '[' :: s1).length = 0 from by simp; omega]
  simp

theorem sref_take2 (s1 s2 : Chars) : (sref s1 s2).take 2 = ['S', '['] := rfl

theorem sref_drop_end (s1 s2 : Chars) :
    (sref s1 s2).drop (s1.length + 3 + s2.length) = [']'] := by
  rw [show s1.length + 3 + s2.length = s1.length + 1 + s2.length + 1 + 1 from
    by omega]
  rw [sref, sref_mid, List.drop_succ_cons, List.drop_succ_cons,
    List.drop_append_eq_append_drop,
    List.drop_eq_nil_of_le (by simp [List.length_append]; omega)]
  have : s1.length + 1 + s2.length - (s1 ++ ',' :: s2).length = 0 := by
    simp [List.length_append]
    omega
  rw [this]
  rfl

theorem sref_take_posY (s1 s2 : Chars) :
    (sref s1 s2).take (s1.length + 3) = 'S' :: '[' :: (s1 ++ [',']) := by
  rw [show s1.length + 3 = s1.length + 1 + 1 + 1 from by omega]
  rw [sref, List.take_succ_cons, List.take_succ_cons,
    List.take_append_eq_append_take,
    List.take_of_length_le (l := s1) (by omega),
    show s1.length + 1 - s1.length = 1 from by omega]
  rfl

theorem sref_splice2 (u w : Chars) :
    ['S', '['] ++ u ++ ',' :: (w ++ [']']) = sref u w := by
  simp [sref]

theorem sref_spliceY (s1 w : Chars) :
    ('S' :: '[' :: (s1 ++ [','])) ++ w ++ [']'] = sref s1 w := by
  simp [sref]

theorem OnF4_sref_AA (a b px py : Int) (posins : Nat) (hlo : 1 < posins)
    (hhi : posins < (intToChars a).length + (intToChars b).length + 4) :
    OnF4 (sref (intToChars a) (intToChars b)) posins (px, py) =
      Out.ret (sref (relText 'X' (a - px)) (relText 'Y' (b - py))) 2 := by
  rw [OnF4_sref _ _ (plain_intToChars a) (plain_intToChars b) posins (px, py)
    hlo hhi]
  rw [testXorYabsrel_intToChars, testXorYabsrel_intToChars]
  have hu : makeXorYrel 'X' (intToChars a) (px, py)
      = some (relText 'X' (a - px)) := by
    rw [makeXorYrel_intToChars]; norm_num
  have hw : makeXorYrel 'Y' (intToChars b) (px, py)
      = some (relText 'Y' (b - py)) := by
    rw [makeXorYrel_intToChars]; simp
  rw [rewritePhase_AA _ _ _ _ _ _ _ _ _ hu hw (sref_get_comma _ _)]
  rw [sref_take2, sref_drop_end, sref_splice2]

theorem OnF4_sref_RR (dx dy px py : Int) :
    OnF4 (sref (relText 'X' dx) (relText 'Y' dy)) 2 (px, py) =
      Out.ret (sref (relText 'X' dx) (intToChars (dy + py))) 2 := by
  rw [OnF4_sref _ _ (plain_relText 'X' (Or.inl rfl) dx)
    (plain_relText 'Y' (Or.inr rfl) dy) 2 (px, py) (by omega) (by omega)]
  rw [testXorYabsrel_relText 'X' (Or.inl rfl), 
    testXorYabsrel_relText 'Y' (Or.inr rfl)]
  have hw : makeXorYabs 'Y' (relText 'Y' dy) (px, py)
      = some (intToChars (dy + py)) := by
    rw [makeXorYabs_relText]; simp
  rw [rewritePhase_RR _ _ _ _ _ _ _ hw]
  rw [sref_take_posY, sref_drop_end, sref_spliceY]

theorem OnF4_sref_RA (dx b px py : Int) :
    OnF4 (sref (relText 'X' dx) (intToChars b)) 2 (px, py) =
      Out.ret (sref (intToChars (dx + px)) (relText 'Y' (b - py))) 2 := by
  rw [OnF4_sref _ _ (plain_relText 'X' (Or.inl rfl) dx)
    (plain_intToChars b) 2 (px, py) (by omega) (by omega)]
  rw [testXorYabsrel_relText 'X' (Or.inl rfl), testXorYabsrel_intToChars]
  have hu : makeXorYabs 'X' (relText 'X' dx) (px, py)
      = some (intToChars (dx + px)) := by
    rw [makeXorYabs_relText]; norm_num
  have hw : makeXorYrel 'Y' (intToChars b) (px, py)
      = some (relText 'Y' (b - py)) := by
    rw [makeXorYrel_intToChars]; simp
  rw [rewritePhase_RA _ _ _ _ _ _ _ _ _ hu hw (sref_get_comma _ _)]
  rw [sref_take2, sref_drop_end, sref_splice2]

theorem OnF4_sref_AR (a dy px py : Int) :
    OnF4 (sref (intToChars a) (relText 'Y' dy)) 2 (px, py) =
      Out.ret (sref (intToChars a) (intToChars (dy + py))) 2 := by
  rw [OnF4_sref _ _ (plain_intToChars a)
    (plain_relText 'Y' (Or.inr rfl) dy) 2 (px, py) (by omega) (by omega)]
  rw [testXorYabsrel_intToChars, testXorYabsrel_relText 'Y' (Or.inr rfl)]
  have hw : makeXorYabs 'Y' (relText 'Y' dy) (px, py)
      = some (intToChars (dy + py)) := by
    rw [makeXorYabs_relText]; simp
  rw [rewritePhase_AR _ _ _ _ _ _ _ hw]
  rw [sref_take_posY, sref_drop_end, sref_spliceY]

/-- C1 (counterexample): the text `"S[3, 4]"` contains a fully-resolvable
reference whose components `"3"` and `" 4"` both classify Absolute, yet four
applications of `OnF4` (cursor 3, anchor `(0,0)`) end at `"S[3,4]"`: the
first rewrite consumes the space belonging to `str2`, so the cycle does not
return to a text equivalent to the original (the difference is whitespace,
not an integer or offset value chosen by the anchor). -/
theorem c1_counterexample :
    testXorYabsrel 'X' "3".toList = ['A', 'X'] ∧
    testXorYabsrel 'Y' " 4".toList = ['A', 'Y'] ∧
    OnF4 "S[3, 4]".toList 3 (0, 0) = Out.ret "S[X + 3,Y + 4]".toList 2 ∧
    OnF4 "S[X + 3,Y + 4]".toList 2 (0, 0) = Out.ret "S[X + 3,4]".toList 2 ∧
    OnF4 "S[X + 3,4]".toList 2 (0, 0) = Out.ret "S[3,Y + 4]".toList 2 ∧
    OnF4 "S[3,Y + 4]".toList 2 (0, 0) = Out.ret "S[3,4]".toList 2 ∧
    "S[3,4]".toList ≠ "S[3, 4]".toList := by
  decide

/-- C1 (amended): four-fold cycle closure up to whitespace normalisation.
For every pair of integer literals `a`, `b`, every anchor `(px, py)` and every
cursor offset strictly inside the text, starting from the canonical reference
`S[<a>,<b>]` the classifications pass through `(A,A) → (R,R) → (R,A) → (A,R)`
and four applications of `OnF4` (each fed the returned text and cursor) return
exactly the original text with cursor 2; a non-canonical `(A,A)` reference
such as `"S[3, 4]"` instead has its inter-component whitespace consumed by the
first rewrite, so its cycle closes at the canonical form `"S[3,4]"`. -/
theorem c1_cycle_closure (a b px py : Int) (posins : Nat)
    (hlo : 1 < posins)
    (hhi : posins < (intToChars a).length + (intToChars b).length + 4) :
    (testXorYabsrel 'X' (intToChars a) = ['A', 'X'] ∧
    testXorYabsrel 'Y' (intToChars b) = ['A', 'Y'] ∧
    testXorYabsrel 'X' (relText 'X' (a - px)) = ['R', 'X'] ∧
    testXorYabsrel 'Y' (relText 'Y' (b - py)) = ['R', 'Y'] ∧
    OnF4 (sref (intToChars a) (intToChars b)) posins (px, py) =
      Out.ret (sref (relText 'X' (a - px)) (relText 'Y' (b - py))) 2 ∧
    OnF4 (sref (relText 'X' (a - px)) (relText 'Y' (b - py))) 2 (px, py) =
      Out.ret (sref (relText 'X' (a - px)) (intToChars b)) 2 ∧
    OnF4 (sref (relText 'X' (a - px)) (intToChars b)) 2 (px, py) =
      Out.ret (sref (intToChars a) (relText 'Y' (b - py))) 2 ∧
    OnF4 (sref (intToChars a) (relText 'Y' (b - py))) 2 (px, py) =
      Out.ret (sref (intToChars a) (intToChars b)) 2) ∧
    (OnF4 "S[3, 4]".toList 3 (0, 0) = Out.ret "S[X + 3,Y + 4]".toList 2 ∧
    OnF4 "S[X + 3,Y + 4]".toList 2 (0, 0) = Out.ret "S[X + 3,4]".toList 2 ∧
    OnF4 "S[X + 3,4]".toList 2 (0, 0) = Out.ret "S[3,Y + 4]".toList 2 ∧
    OnF4 "S[3,Y + 4]".toList 2 (0, 0) = Out.ret "S[3,4]".toList 2) := by
  have e1 : b - py + py = b := by ring
  have e2 : a - px + px = a := by ring
  refine ⟨⟨testXorYabsrel_intToChars 'X' a, testXorYabsrel_intToChars 'Y' b,
    testXorYabsrel_relText 'X' (Or.inl rfl) (a - px),
    testXorYabsrel_relText 'Y' (Or.inr rfl) (b - py),
    OnF4_sref_AA a b px py posins hlo hhi, ?_, ?_, ?_⟩,
    by decide, by decide, by decide, by decide⟩
  · rw [OnF4_sref_RR (a - px) (b - py) px py, e1]
  · rw [OnF4_sref_RA (a - px) b px py, e2]
  · rw [OnF4_sref_AR a (b - py) px py, e1]

/-- C1 (witness): the amended claim at `a = 3`, `b = 4`, anchor `(0, 0)`,
cursor 2. -/
theorem c1_cycle_closure_witness :
    (1 < 2 ∧ 2 < (intToChars 3).length + (intToChars 4).length + 4) ∧
    ((testXorYabsrel 'X' (intToChars 3) = ['A', 'X'] ∧
    testXorYabsrel 'Y' (intToChars 4) = ['A', 'Y'] ∧
    testXorYabsrel 'X' (relText 'X' (3 - 0)) = ['R', 'X'] ∧
    testXorYabsrel 'Y' (relText 'Y' (4 - 0)) = ['R', 'Y'] ∧
    OnF4 (sref (intToChars 3) (intToChars 4)) 2 (0, 0) =
      Out.ret (sref (relText 'X' (3 - 0)) (relText 'Y' (4 - 0))) 2 ∧
    OnF4 (sref (relText 'X' (3 - 0)) (relText 'Y' (4 - 0))) 2 (0, 0) =
      Out.ret (sref (relText 'X' (3 - 0)) (intToChars 4)) 2 ∧
    OnF4 (sref (relText 'X' (3 - 0)) (intToChars 4)) 2 (0, 0) =
      Out.ret (sref (intToChars 3) (relText 'Y' (4 - 0))) 2 ∧
    OnF4 (sref (intToChars 3) (relText 'Y' (4 - 0))) 2 (0, 0) =
      Out.ret (sref (intToChars 3) (intToChars 4)) 2) ∧
    (OnF4 "S[3, 4]".toList 3 (0, 0) = Out.ret "S[X + 3,Y + 4]".toList 2 ∧
    OnF4 "S[X + 3,Y + 4]".toList 2 (0, 0) = Out.ret "S[X + 3,4]".toList 2 ∧
    OnF4 "S[X + 3,4]".toList 2 (0, 0) = Out.ret "S[3,Y + 4]".toList 2 ∧
    OnF4 "S[3,Y + 4]".toList 2 (0, 0) = Out.ret "S[3,4]".toList 2)) :=
  ⟨⟨by decide, by decide⟩, c1_cycle_closure 3 4 0 0 2 (by decide) (by decide)⟩

theorem findposIdx_nb_some (s : Chars)
    (h : ∀ c ∈ s, c ∉ (['(', '[', '{'] : Chars)) :
    ∀ f k, findposIdx f s = some k → s.get? k = some ',' ∧ ',' ∉ s.take k := by
  induction s with
  | nil => intro f k hf; cases f <;> simp [findposIdx] at hf
  | cons c cs ih =>
    intro f k hf
    cases f with
    | zero => simp [findposIdx] at hf
    | succ f =>
      by_cases hc : c = ','
      · subst hc
        simp only [findposIdx, if_true, eq_self_iff_true, Option.some.injEq]
          at hf
        subst hf
        exact ⟨rfl, by simp⟩
      · have hop : ¬c ∈ (['(', '[', '{'] : Chars) :=
          h c (List.mem_cons_self c cs)
        simp only [findposIdx, if_neg hc, if_neg hop] at hf
        cases hE : findposIdx f cs with
        | none => rw [hE] at hf; simp at hf
        | some k2 =>
          rw [hE] at hf
          simp only [Option.some.injEq] at hf
          obtain ⟨hg, ht⟩ :=
            ih (fun d hd => h d (List.mem_cons_of_mem c hd)) f k2 hE
          subst hf
          refine ⟨hg, ?_⟩
          rw [List.take_succ_cons]
          intro hm
          rcases List.mem_cons.mp hm with he | hm2
          · exact hc he.symm
          · exact ht hm2

theorem findposIdx_nb_none (s : Chars)
    (h : ∀ c ∈ s, c ∉ (['(', '[', '{'] : Chars)) :
    ∀ f, findposIdx f s = none → s.length < f → ',' ∉ s := by
  induction s with
  | nil => intro f hf hl; simp
  | cons c cs ih =>
    intro f hf hl
    cases f with
    | zero => simp at hl
    | succ f =>
      by_cases hc : c = ','
      · subst hc
        simp [findposIdx] at hf
      · have hop : ¬c ∈ (['(', '[', '{'] : Chars) :=
          h c (List.mem_cons_self c cs)
        simp only [findposIdx, if_neg hc, if_neg hop] at hf
        cases hE : findposIdx f cs with
        | some k2 => rw [hE] at hf; simp at hf
        | none =>
          have hrec := ih (fun d hd => h d (List.mem_cons_of_mem c hd)) f hE
            (by simp at hl; omega)
          intro hm
          rcases List.mem_cons.mp hm with he | hm2
          · exact hc he.symm
          · exact hrec hm2

/-- C2 (amended): on `"S[3, 4]"` with anchor `(0,0)`, interior cursors 2–6
classify both components Absolute (`"3"`, `" 4"`) and rewrite to
`"S[X + 3,Y + 4]"` with cursor 2 (plus forms, the space before `4` consumed);
cursors 0, 1, 7 take the first-reference path, where the `Y` scan includes the
closing bracket (`" 4]"`, placeholder `-`), so only `X` is rewritten:
`"S[X + 3, 4]"` with cursor 0. -/
theorem c2_amended :
    testXorYabsrel 'X' "3".toList = ['A', 'X'] ∧
    testXorYabsrel 'Y' " 4".toList = ['A', 'Y'] ∧
    testXorYabsrel 'Y' " 4]".toList = ['-'] ∧
    (∀ p : Nat, p < 8 →
      OnF4 "S[3, 4]".toList p (0, 0) =
        if 2 ≤ p ∧ p ≤ 6 then Out.ret "S[X + 3,Y + 4]".toList 2
        else Out.ret "S[X + 3, 4]".toList 0) := by
  refine ⟨by decide, by decide, by decide, ?_⟩
  decide

/-- C2 (witness): the amended claim applied at cursor 3. -/
theorem c2_amended_witness :
    (3 : Nat) < 8 ∧
    OnF4 "S[3, 4]".toList 3 (0, 0) = Out.ret "S[X + 3,Y + 4]".toList 2 :=
  ⟨by decide, (c2_amended.2.2.2 3 (by decide)).trans (by decide)⟩

/-- C5 (amended): for every text containing no `S` and every cursor outside
the cursor-inside guard (`1 < cursor < len`), and likewise for `"xS"` at
cursor 0 (whose only `S` is rejected, with no later `S`), `OnF4` returns
Python's `None` — a sentinel carrying no text or cursor.  When a reference is
located but both axis components classify Complex, `OnF4` does not return the
sentinel: it returns the unchanged text with the cursor set to the start of
the reference interior (cursor-inside mode) or to 0 (first-reference mode),
so the input cursor offset is generally altered.  (On other no-reference
inputs `OnF4` may instead diverge or raise, so no blanket sentinel guarantee
holds.) -/
theorem c5_amended :
    (∀ (t : Chars) (p : Nat) (pc : Int × Int), 'S' ∉ t →
      ¬(1 < p ∧ p < t.length) → OnF4 t p pc = Out.retNone) ∧
    OnF4 "xS".toList 0 (0, 0) = Out.retNone ∧
    OnF4 "S[X!, Y!]".toList 4 (0, 0) = Out.ret "S[X!, Y!]".toList 2 ∧
    OnF4 "S[X!, Y!]".toList 0 (0, 0) = Out.ret "S[X!, Y!]".toList 0 := by
  refine ⟨?_, by decide, by decide, by decide⟩
  intro t p pc h hg
  have hfind : pyFind t 'S' = -1 := pyFind_not_mem t 'S' h
  unfold OnF4 OnF4fuel
  rw [if_neg hg]
  have hscan : scanFirst t (t.length + 2) (-1) = InRes.notFound := by
    simp only [scanFirst, show ((-1 : Int) + 1).toNat = 0 from rfl,
      List.drop_zero, hfind]
    norm_num
  rw [hscan]

/-- C5 (witness): the sentinel case at text `"hello"`, cursor 0, anchor
`(3, 9)`. -/
theorem c5_amended_witness :
    ('S' ∉ "hello".toList ∧ ¬(1 < 0 ∧ 0 < "hello".toList.length)) ∧
    OnF4 "hello".toList 0 (3, 9) = Out.retNone :=
  ⟨⟨by decide, by decide⟩,
    c5_amended.1 "hello".toList 0 (3, 9) (by decide) (by decide)⟩

/-- C6 (amended): the classifier returns `"A"+v` exactly on integer literals;
otherwise, if the component contains `v`, it returns `"R"+v` or `"C"+v`
according to whether the zero-substituted text evaluates; but when the
component does not contain `v` at all it returns the placeholder `"-"`,
not `"C"+v`. -/
theorem c6_amended (v : Char) (s : Chars) :
    ((pyInt s).isSome → testXorYabsrel v s = ['A', v]) ∧
    (pyInt s = none → v ∈ s → (pyEval (substFirst0 v s)).isSome →
      testXorYabsrel v s = ['R', v]) ∧
    (pyInt s = none → v ∈ s → pyEval (substFirst0 v s) = none →
      testXorYabsrel v s = ['C', v]) ∧
    (pyInt s = none → v ∉ s → testXorYabsrel v s = ['-']) := by
  refine ⟨?_, ?_, ?_, ?_⟩
  · intro h
    obtain ⟨x, hx⟩ := Option.isSome_iff_exists.mp h
    simp [testXorYabsrel, hx]
  · intro h1 h2 h3
    obtain ⟨x, hx⟩ := Option.isSome_iff_exists.mp h3
    have hf : 0 ≤ pyFind s v := (pyFind_nonneg_iff s v).mpr h2
    simp [testXorYabsrel, h1, hf, hx]
  · intro h1 h2 h3
    have hf : 0 ≤ pyFind s v := (pyFind_nonneg_iff s v).mpr h2
    simp [testXorYabsrel, h1, hf, h3]
  · intro h1 h2
    have hf : ¬0 ≤ pyFind s v := by
      rw [pyFind_not_mem s v h2]; decide
    simp [testXorYabsrel, h1, hf]

/-- C6 (witness): the Relative case at `v = X`, `s = "X+1"`. -/
theorem c6_amended_witness :
    (pyInt "X+1".toList = none ∧ 'X' ∈ "X+1".toList ∧
      (pyEval (substFirst0 'X' "X+1".toList)).isSome) ∧
    testXorYabsrel 'X' "X+1".toList = ['R', 'X'] :=
  ⟨⟨by decide, by decide, by decide⟩,
    (c6_amended 'X' "X+1".toList).2.1 (by decide) (by decide) (by decide)⟩

/-- C7 (amended): `findpos` always returns a prefix of its input, and on
inputs containing no opening bracket it is exactly the prefix strictly before
the first comma (the whole string when there is none), which then contains no
comma at all; but in the presence of bracket groups the scanner double-counts
the opener (and counts quotes as increments), so a comma at standard nesting
level 0 can be swallowed, as in `findpos "(a),b" = "(a),b"`. -/
theorem c7_amended :
    (∀ s : Chars, ∃ k, findpos s = s.take k) ∧
    (∀ s : Chars, (∀ c ∈ s, c ∉ (['(', '[', '{'] : Chars)) →
      ',' ∉ findpos s ∧
      (findpos s = s ∨ s.get? (findpos s).length = some ',')) := by
  constructor
  · intro s
    unfold findpos
    cases hE : findposIdx (s.length + 1) s with
    | none => exact ⟨s.length, (List.take_length s).symm⟩
    | some k => exact ⟨k, rfl⟩
  · intro s hnb
    unfold findpos
    cases hE : findposIdx (s.length + 1) s with
    | none =>
      have hnc := findposIdx_nb_none s hnb (s.length + 1) hE (by omega)
      exact ⟨hnc, Or.inl rfl⟩
    | some k =>
      obtain ⟨hg, ht⟩ := findposIdx_nb_some s hnb (s.length + 1) k hE
      have hk : k < s.length := by
        by_contra hk2
        rw [List.get?_eq_none.mpr (by omega)] at hg
        simp at hg
      refine ⟨ht, Or.inr ?_⟩
      rw [List.length_take]
      rw [show min k s.length = k from by omega]
      exact hg

/-- C7 (witness): the amended claim at the bracket-free string `"ab,cd"`. -/
theorem c7_amended_witness :
    (∀ c ∈ "ab,cd".toList, c ∉ (['(', '[', '{'] : Chars)) ∧
    (',' ∉ findpos "ab,cd".toList ∧
      (findpos "ab,cd".toList = "ab,cd".toList ∨
        "ab,cd".toList.get? (findpos "ab,cd".toList).length = some ',')) :=
  ⟨by decide, c7_amended.2 "ab,cd".toList (by decide)⟩

/-- C8 (amended): each `findcolon` component reports the first colon its outer
scan reaches (or `-1`), and the first component is computed before — and
independently of — the second, so `"(a:b)"` as first input always yields `-1`;
but the bracket counter is shared between the two strings, so the second
component's result can depend on the first string (`["", "())x:"]` gives 4 for
the second string while `["(", "())x:"]` gives `-1`). -/
theorem c8_amended :
    (∀ s : Chars, (findcolon ("(a:b)".toList, s)).1 = -1) ∧
    (findcolon ("".toList, "())x:".toList)).2 = 4 ∧
    (findcolon ("(".toList, "())x:".toList)).2 = -1 := by
  refine ⟨?_, by decide, by decide⟩
  intro s
  rfl
